import Mathlib

/-!
# Verification of the unified-ai-api core against its specification

Shallow embedding of the core of `unified_ai` (fallback chain, provider
registry, cost estimation, health aggregation, session storage) and proofs
of the specified properties.

Conventions of the embedding:
* Python `datetime` values are modelled as `Nat` timestamps;
  `datetime.isoformat`/`datetime.fromisoformat` round-trip exactly, so the
  serialization pair is modelled as the identity on the timestamp.
* Python `float` quantities (prices, costs, probe durations) are modelled
  as `ℚ` (real-number semantics of the arithmetic in the source).
* Python dicts are modelled as insertion-ordered association lists, which
  matches dict iteration order (relevant for `min` over keys).
* `async` functions carry no concurrency in the properties proved here;
  they are modelled as pure functions of the providers' behaviours for the
  one request under consideration.
* Wall-clock fields that no claim depends on (`latency_ms`, `timestamp`)
  are omitted from the records.
-/

namespace UnifiedAI

/-! ## Data model (`unified_ai/core/llm_client.py`) -/

/-- A single message in a conversation (`Message` in `llm_client.py`). -/
structure Message where
  role : String
  content : String
deriving DecidableEq, Repr

/-- Result of a completion request (`CompletionResult` in `llm_client.py`).
`latency_ms`, `cost_usd` are carried as `ℚ`; the wall-clock `timestamp`
field is omitted. -/
structure CompletionResult where
  content : String
  provider : String
  model : String
  input_tokens : Nat
  output_tokens : Nat
  latency_ms : ℚ
  cost_usd : ℚ
deriving DecidableEq, Repr

/-- Exception data raised when a provider fails (`ProviderError` in
`llm_client.py`). -/
structure ProviderError where
  provider : String
  message : String
  status_code : Option Int
  retryable : Bool
deriving DecidableEq, Repr

/-- `ProviderError.__str__`: `f"{self.provider.value}: {self.message}"`. -/
def ProviderError.str (e : ProviderError) : String :=
  e.provider ++ ": " ++ e.message

/-! ## Fallback chain (`unified_ai/core/fallback.py`) -/

/-- Record of a fallback attempt (`FallbackAttempt`); the wall-clock
fields `latency_ms` and `timestamp` are omitted. -/
structure FallbackAttempt where
  provider : String
  success : Bool
  error : Option String
deriving DecidableEq, Repr

/-- Result from the fallback chain (`FallbackResult`). -/
structure FallbackResult where
  result : CompletionResult
  attempts : List FallbackAttempt
deriving DecidableEq, Repr

/-- `FallbackResult.fallback_used`: whether fallback was needed,
`len(self.attempts) > 1`. -/
def FallbackResult.fallback_used (r : FallbackResult) : Bool :=
  decide (r.attempts.length > 1)

/-- The behaviour of one provider's `complete` coroutine for the request
under consideration: it either returns a `CompletionResult` or raises a
`ProviderError`. -/
inductive ProviderBehavior where
  | succeeds (result : CompletionResult)
  | fails (e : ProviderError)
deriving DecidableEq, Repr

/-- One `LLMClient` in the chain, abstracted to its `name` property and
its behaviour for the request under consideration. -/
structure Provider where
  name : String
  behavior : ProviderBehavior
deriving DecidableEq, Repr

/-- The error a provider raises for this request, if it fails. -/
def Provider.errOf (p : Provider) : Option ProviderError :=
  match p.behavior with
  | .succeeds _ => none
  | .fails e => some e

/-- The success `FallbackAttempt` appended when `provider.complete`
returns (lines 196-201 of `fallback.py`). -/
def successAttempt (p : Provider) : FallbackAttempt :=
  { provider := p.name, success := true, error := none }

/-- The failure `FallbackAttempt` appended when `provider.complete`
raises `ProviderError e` (lines 215-221 of `fallback.py`):
`error = str(e)`. -/
def failureAttempt (p : Provider) (e : ProviderError) : FallbackAttempt :=
  { provider := p.name, success := false, error := some e.str }

/-- The attempt record produced by invoking provider `p`
(success or failure, depending on its behaviour). -/
def attemptRecord (p : Provider) : FallbackAttempt :=
  match p.behavior with
  | .succeeds _ => successAttempt p
  | .fails e => failureAttempt p e

/-- Outcome of `FallbackChain.complete`: either a `FallbackResult` or the
raised `AllProvidersFailedError`, which carries the attempt list. -/
inductive CompleteOutcome where
  | ok (r : FallbackResult)
  | allProvidersFailed (attempts : List FallbackAttempt)
deriving DecidableEq, Repr

/-- The attempts recorded in either outcome of `complete`. -/
def CompleteOutcome.attempts : CompleteOutcome → List FallbackAttempt
  | .ok r => r.attempts
  | .allProvidersFailed a => a

/-- The loop of `FallbackChain.complete` (lines 182-237 of `fallback.py`).
`chain` is `self.providers` (needed for the `provider == self.providers[-1]`
test); the second argument is the remaining suffix still to try; `attempts`
is the accumulator. Python `==` on `LLMClient` objects is identity, which
the registry makes coincide with structural equality on distinct clients. -/
def completeAux (chain : List Provider) :
    List Provider → List FallbackAttempt → CompleteOutcome
  | [], attempts => .allProvidersFailed attempts
  | p :: rest, attempts =>
    match p.behavior with
    | .succeeds result =>
      .ok { result := result, attempts := attempts ++ [successAttempt p] }
    | .fails e =>
      let attempts' := attempts ++ [failureAttempt p e]
      -- "If not retryable and no more providers, fail fast" (line 234)
      if e.retryable = false ∧ chain.getLast? = some p then
        .allProvidersFailed attempts'
      else
        completeAux chain rest attempts'

/-- `FallbackChain.complete`, as a function of the providers' behaviours
for this request. -/
def FallbackChain.complete (providers : List Provider) : CompleteOutcome :=
  completeAux providers providers []

/-- Message of `AllProvidersFailedError` (lines 58-61 of `fallback.py`):
`"All providers failed: " + "; ".join(f"{a.provider.value}: {a.error}"
for a in attempts if a.error)`; `if a.error` excludes `None` and `""`. -/
def joinSemicolon : List String → String
  | [] => ""
  | [x] => x
  | x :: xs => x ++ "; " ++ joinSemicolon xs

/-- The pieces `f"{a.provider.value}: {a.error}"` for attempts whose
`error` is truthy. -/
def errorPieces (attempts : List FallbackAttempt) : List String :=
  attempts.filterMap fun a =>
    match a.error with
    | none => none
    | some err => if err = "" then none else some (a.provider ++ ": " ++ err)

/-- The full `AllProvidersFailedError` message text. -/
def allProvidersFailedMessage (attempts : List FallbackAttempt) : String :=
  "All providers failed: " ++ joinSemicolon (errorPieces attempts)

/-! ### Lemmas about the fallback loop -/

/-- Unfolding: invoking a succeeding provider returns at once with a
success record appended. -/
theorem completeAux_cons_succeeds {p : Provider} {r : CompletionResult}
    (chain rest : List Provider) (acc : List FallbackAttempt)
    (hb : p.behavior = .succeeds r) :
    completeAux chain (p :: rest) acc =
      .ok { result := r, attempts := acc ++ [successAttempt p] } := by
  unfold completeAux; rw [hb]

/-- Unfolding: invoking a failing provider appends a failure record, then
either fails fast or moves on. -/
theorem completeAux_cons_fails {p : Provider} {e : ProviderError}
    (chain rest : List Provider) (acc : List FallbackAttempt)
    (hb : p.behavior = .fails e) :
    completeAux chain (p :: rest) acc =
      if e.retryable = false ∧ chain.getLast? = some p then
        .allProvidersFailed (acc ++ [failureAttempt p e])
      else
        completeAux chain rest (acc ++ [failureAttempt p e]) := by
  conv_lhs => unfold completeAux
  rw [hb]

/-- A failing provider's attempt record. -/
theorem attemptRecord_fails {p : Provider} {e : ProviderError}
    (hb : p.behavior = .fails e) : attemptRecord p = failureAttempt p e := by
  unfold attemptRecord; rw [hb]

/-- A succeeding provider's attempt record. -/
theorem attemptRecord_succeeds {p : Provider} {r : CompletionResult}
    (hb : p.behavior = .succeeds r) : attemptRecord p = successAttempt p := by
  unfold attemptRecord; rw [hb]

/-- A provider with `errOf.isSome` fails with some error. -/
theorem errOf_isSome_iff {p : Provider} :
    p.errOf.isSome ↔ ∃ e, p.behavior = .fails e := by
  unfold Provider.errOf
  cases hb : p.behavior with
  | succeeds r => simp
  | fails e => simp

/-- The accumulator is a prefix of the attempts of any outcome:
the loop only ever appends attempt records. -/
theorem completeAux_attempts_extend (chain : List Provider) :
    ∀ (ps : List Provider) (acc : List FallbackAttempt),
      acc <+: (completeAux chain ps acc).attempts
  | [], acc => List.prefix_refl acc
  | p :: rest, acc => by
    cases hb : p.behavior with
    | succeeds r =>
      rw [completeAux_cons_succeeds chain rest acc hb]
      exact ⟨[successAttempt p], rfl⟩
    | fails e =>
      rw [completeAux_cons_fails chain rest acc hb]
      by_cases hc : e.retryable = false ∧ chain.getLast? = some p
      · rw [if_pos hc]
        exact ⟨[failureAttempt p e], rfl⟩
      · rw [if_neg hc]
        exact List.IsPrefix.trans ⟨[failureAttempt p e], rfl⟩
          (completeAux_attempts_extend chain rest (acc ++ [failureAttempt p e]))

/-- If providers remain, the next one is invoked: the record at index
`acc.length` of the final attempts is the next provider's record. -/
theorem completeAux_next_invoked (chain : List Provider)
    (p : Provider) (rest : List Provider) (acc : List FallbackAttempt) :
    (completeAux chain (p :: rest) acc).attempts[acc.length]? =
      some (attemptRecord p) := by
  have key : ∀ (out : List FallbackAttempt) (x : FallbackAttempt),
      (acc ++ [x]) <+: out → out[acc.length]? = some x := by
    intro out x hpre
    obtain ⟨t, ht⟩ := hpre
    rw [← ht, List.getElem?_append, if_pos (by simp)]
    rw [List.getElem?_append, if_neg (by simp)]
    simp
  cases hb : p.behavior with
  | succeeds r =>
    rw [completeAux_cons_succeeds chain rest acc hb, attemptRecord_succeeds hb]
    exact key _ (successAttempt p) (List.prefix_refl _)
  | fails e =>
    rw [completeAux_cons_fails chain rest acc hb, attemptRecord_fails hb]
    by_cases hc : e.retryable = false ∧ chain.getLast? = some p
    · rw [if_pos hc]
      exact key _ (failureAttempt p e) (List.prefix_refl _)
    · rw [if_neg hc]
      exact key (completeAux chain rest (acc ++ [failureAttempt p e])).attempts
        (failureAttempt p e)
        (completeAux_attempts_extend chain rest (acc ++ [failureAttempt p e]))

/-- In a duplicate-free chain, a provider that compares equal to
`self.providers[-1]` while a nonempty tail remains cannot exist. -/
theorem suffix_getLast_tail_nil {chain : List Provider} {p : Provider}
    {rest : List Provider} (hnd : chain.Nodup)
    (hsuf : (p :: rest) <:+ chain) (hlast : chain.getLast? = some p) :
    rest = [] := by
  obtain ⟨pre, hpre⟩ := hsuf
  have hl : (p :: rest).getLast? = some p := by
    rw [← hlast, ← hpre, List.getLast?_append_cons]
  cases rest with
  | nil => rfl
  | cons q rest' =>
    exfalso
    rw [List.getLast?_cons_cons] at hl
    obtain ⟨hne, hp⟩ := List.mem_getLast?_eq_getLast hl
    have hmem : p ∈ q :: rest' := hp ▸ List.getLast_mem hne
    have hnd' : (p :: q :: rest').Nodup :=
      (hpre ▸ hnd).sublist (List.sublist_append_right pre _)
    exact (List.nodup_cons.mp hnd').1 hmem

/-- Running the loop over a block of failing providers, with more
providers still to come, appends their failure records and continues:
the fail-fast test never fires before the tail of the list. -/
theorem completeAux_run_failures {chain : List Provider} (hnd : chain.Nodup) :
    ∀ (fs rest : List Provider) (acc : List FallbackAttempt),
      (fs ++ rest) <:+ chain → (∀ q ∈ fs, q.errOf.isSome) → rest ≠ [] →
      completeAux chain (fs ++ rest) acc =
        completeAux chain rest (acc ++ fs.map attemptRecord)
  | [], rest, acc, _, _, _ => by simp
  | q :: fs', rest, acc, hsuf, hfail, hrest => by
    obtain ⟨e, he⟩ : ∃ e, q.behavior = .fails e :=
      errOf_isSome_iff.mp (hfail q (List.mem_cons_self q fs'))
    have hnotlast : ¬ chain.getLast? = some q := by
      intro hlast
      have : fs' ++ rest = [] :=
        suffix_getLast_tail_nil hnd (by simpa using hsuf) hlast
      exact hrest (List.append_eq_nil.mp this).2
    have hsuf' : (fs' ++ rest) <:+ chain := by
      obtain ⟨pre, hpre⟩ := hsuf
      exact ⟨pre ++ [q], by simpa using hpre⟩
    have step1 : completeAux chain ((q :: fs') ++ rest) acc =
        completeAux chain (fs' ++ rest) (acc ++ [failureAttempt q e]) := by
      rw [List.cons_append, completeAux_cons_fails chain (fs' ++ rest) acc he,
        if_neg (fun hc => hnotlast hc.2)]
    have step2 : completeAux chain (fs' ++ rest) (acc ++ [failureAttempt q e]) =
        completeAux chain rest ((acc ++ [failureAttempt q e]) ++ fs'.map attemptRecord) :=
      completeAux_run_failures hnd fs' rest _ hsuf'
        (fun q' hq' => hfail q' (List.mem_cons_of_mem q hq')) hrest
    have step3 : (acc ++ [failureAttempt q e]) ++ fs'.map attemptRecord =
        acc ++ (q :: fs').map attemptRecord := by
      rw [List.map_cons, attemptRecord_fails he, List.append_assoc,
        List.singleton_append]
    rw [step1, step2, step3]

/-- `take (i+1)` splits as `take i` plus the `i`-th element. -/
theorem take_succ_eq {α : Type} (l : List α) (i : Nat) (hi : i < l.length) :
    l.take (i + 1) = l.take i ++ [l[i]] := by
  rw [List.take_succ, List.getElem?_eq_getElem hi]
  rfl

/-- If every provider in a duplicate-free suffix fails, the loop exhausts
it and raises with one failure record per provider, in order. -/
theorem completeAux_all_fail {chain : List Provider} (hnd : chain.Nodup)
    (ps : List Provider) (acc : List FallbackAttempt)
    (hsuf : ps <:+ chain) (hfail : ∀ q ∈ ps, q.errOf.isSome) :
    completeAux chain ps acc =
      .allProvidersFailed (acc ++ ps.map attemptRecord) := by
  rcases List.eq_nil_or_concat ps with hnil | ⟨fs, plast, hconcat⟩
  · subst hnil
    simp [completeAux]
  · rw [List.concat_eq_append] at hconcat
    subst hconcat
    obtain ⟨e, he⟩ : ∃ e, plast.behavior = .fails e :=
      errOf_isSome_iff.mp (hfail plast (List.mem_append_right fs (List.mem_singleton_self plast)))
    have hrun := completeAux_run_failures hnd fs [plast] acc hsuf
      (fun q hq => hfail q (List.mem_append_left _ hq)) (by simp)
    rw [hrun, completeAux_cons_fails chain [] _ he]
    have hout : acc ++ fs.map attemptRecord ++ [failureAttempt plast e] =
        acc ++ (fs ++ [plast]).map attemptRecord := by
      rw [List.map_append, List.map_singleton, attemptRecord_fails he,
        List.append_assoc]
    by_cases hc : e.retryable = false ∧ chain.getLast? = some plast
    · rw [if_pos hc, hout]
    · rw [if_neg hc]
      show CompleteOutcome.allProvidersFailed _ = _
      rw [hout]

/-- Each failed provider's message is referenced by the
`AllProvidersFailedError` text: the `str(e)` pieces are nonempty. -/
theorem ProviderError.str_ne_empty (e : ProviderError) : e.str ≠ "" := by
  unfold ProviderError.str
  intro h
  have hd : (e.provider ++ ": " ++ e.message).data = "".data := by rw [h]
  simp [String.data_append] at hd

/-- Membership in the joined error list gives a substring of the join. -/
theorem joinSemicolon_infix : ∀ (l : List String) (x : String), x ∈ l →
    x.data <:+: (joinSemicolon l).data
  | [], x, hx => absurd hx (List.not_mem_nil x)
  | [y], x, hx => by
    rw [List.mem_singleton.mp hx]
    exact List.infix_refl _
  | y :: z :: zs, x, hx => by
    rcases List.mem_cons.mp hx with hxy | hxtail
    · subst hxy
      show x.data <:+: ((x ++ "; ") ++ joinSemicolon (z :: zs)).data
      rw [String.data_append, String.data_append]
      exact ⟨[], ("; ".data ++ (joinSemicolon (z :: zs)).data), by simp⟩
    · have ih := joinSemicolon_infix (z :: zs) x hxtail
      show x.data <:+: ((y ++ "; ") ++ joinSemicolon (z :: zs)).data
      rw [String.data_append]
      obtain ⟨s, t, hst⟩ := ih
      exact ⟨(y ++ "; ").data ++ s, t, by rw [← hst]; simp⟩

/-- A substring of `m` is a substring of `pre ++ m`. -/
theorem infix_append_left_string {x m : List Char} (pre : String)
    (h : x <:+: m) : x <:+: (pre.data ++ m) := by
  obtain ⟨s, t, hst⟩ := h
  exact ⟨pre.data ++ s, t, by rw [← hst]; simp⟩

/-! ### Claim theorems for the fallback loop -/

/-- **C1**: for a duplicate-free backend list, if the backend at 0-based
index `i` succeeds and every earlier backend fails with a classified
backend error, `FallbackChain.complete` returns a `FallbackOutcome` whose
result is that backend's result, whose attempts are exactly the `i`
failure records (in invocation order) followed by one success record —
so `i + 1` attempts in total and no later backend invoked — and whose
`fallback_used` is `i > 0` (1-based: `i > 1`). -/
theorem complete_first_success_short_circuits
    (ps : List Provider) (hnd : ps.Nodup) (i : Nat) (hi : i < ps.length)
    (r : CompletionResult)
    (hfail : ∀ q ∈ ps.take i, q.errOf.isSome)
    (hsucc : ps[i].behavior = .succeeds r) :
    FallbackChain.complete ps =
      .ok { result := r,
            attempts := (ps.take i).map attemptRecord ++ [successAttempt ps[i]] } ∧
    (FallbackChain.complete ps).attempts.length = i + 1 ∧
    (∀ a ∈ (ps.take i).map attemptRecord, a.success = false) ∧
    (successAttempt ps[i]).success = true ∧
    (∀ fr : FallbackResult, FallbackChain.complete ps = .ok fr →
      fr.fallback_used = decide (0 < i)) := by
  have hdecomp : ps.take i ++ (ps[i] :: ps.drop (i + 1)) = ps := by
    rw [← List.drop_eq_getElem_cons hi, List.take_append_drop]
  have hrun := completeAux_run_failures hnd (ps.take i)
    (ps[i] :: ps.drop (i + 1)) [] ⟨[], by simp [hdecomp]⟩ hfail
    (List.cons_ne_nil _ _)
  rw [hdecomp] at hrun
  have hmain : FallbackChain.complete ps =
      .ok { result := r,
            attempts := (ps.take i).map attemptRecord ++ [successAttempt ps[i]] } := by
    unfold FallbackChain.complete
    rw [hrun, completeAux_cons_succeeds _ _ _ hsucc, List.nil_append]
  have hlen : (FallbackChain.complete ps).attempts.length = i + 1 := by
    rw [hmain]
    show ((ps.take i).map attemptRecord ++ [successAttempt ps[i]]).length = i + 1
    rw [List.length_append, List.length_map, List.length_take,
      Nat.min_eq_left (Nat.le_of_lt hi)]
    rfl
  refine ⟨hmain, hlen, ?_, rfl, ?_⟩
  · intro a ha
    obtain ⟨q, hq, rfl⟩ := List.mem_map.mp ha
    obtain ⟨e, he⟩ := errOf_isSome_iff.mp (hfail q hq)
    rw [attemptRecord_fails he]
    rfl
  · intro fr hfr
    rw [hmain] at hfr
    have hattempts : fr.attempts.length = i + 1 := by
      cases hfr
      rw [hmain] at hlen
      exact hlen
    unfold FallbackResult.fallback_used
    rw [hattempts, decide_eq_decide]
    omega

/-- **C2**: with every backend before index `i` failing and the backend at
`i` failing with a non-retryable error, the fail-fast abort (raising
`AllBackendsFailed` with exactly the `i + 1` records so far) happens iff
backend `i` is the last of the list; on a non-final backend the chain
still invokes backend `i + 1`. -/
theorem complete_nonretryable_abort_iff_last
    (ps : List Provider) (hnd : ps.Nodup) (i : Nat) (hi : i < ps.length)
    (e : ProviderError)
    (hfail : ∀ q ∈ ps.take i, q.errOf.isSome)
    (hbe : ps[i].behavior = .fails e)
    (hnr : e.retryable = false) :
    (FallbackChain.complete ps =
        .allProvidersFailed ((ps.take (i + 1)).map attemptRecord) ↔
      i + 1 = ps.length) ∧
    (∀ h2 : i + 1 < ps.length,
      (FallbackChain.complete ps).attempts[i + 1]? =
        some (attemptRecord ps[i + 1])) := by
  have hfail' : ∀ q ∈ ps.take (i + 1), q.errOf.isSome := by
    rw [take_succ_eq ps i hi]
    intro q hq
    rcases List.mem_append.mp hq with h | h
    · exact hfail q h
    · rw [List.mem_singleton.mp h]
      unfold Provider.errOf
      rw [hbe]
      rfl
  by_cases hlen : i + 1 = ps.length
  · have hps : ps.take i ++ [ps[i]] = ps := by
      rw [← take_succ_eq ps i hi, hlen, List.take_length]
    have hlast : ps.getLast? = some ps[i] := by
      conv_lhs => rw [← hps]
      exact List.getLast?_concat _
    have hrun := completeAux_run_failures hnd (ps.take i)
      [ps[i]] [] (by rw [hps]) hfail (by simp)
    rw [hps] at hrun
    have hcompute : FallbackChain.complete ps =
        .allProvidersFailed ((ps.take (i + 1)).map attemptRecord) := by
      unfold FallbackChain.complete
      rw [hrun, completeAux_cons_fails _ _ _ hbe, if_pos ⟨hnr, hlast⟩,
        take_succ_eq ps i hi, List.map_append, List.map_singleton,
        attemptRecord_fails hbe, List.nil_append]
    exact ⟨⟨fun _ => hlen, fun _ => hcompute⟩, fun h2 => by omega⟩
  · have h2' : i + 1 < ps.length :=
      Nat.lt_of_le_of_ne (Nat.succ_le_of_lt hi) hlen
    have hdecomp : ps.take (i + 1) ++ (ps[i + 1] :: ps.drop (i + 2)) = ps := by
      rw [← List.drop_eq_getElem_cons h2', List.take_append_drop]
    have hrun := completeAux_run_failures hnd (ps.take (i + 1))
      (ps[i + 1] :: ps.drop (i + 2)) [] ⟨[], by simp [hdecomp]⟩ hfail'
      (List.cons_ne_nil _ _)
    rw [hdecomp] at hrun
    have hacclen : ([] ++ (ps.take (i + 1)).map attemptRecord).length = i + 1 := by
      rw [List.nil_append, List.length_map, List.length_take,
        Nat.min_eq_left (Nat.le_of_lt h2')]
    have hnext0 := completeAux_next_invoked ps ps[i + 1] (ps.drop (i + 2))
      ([] ++ (ps.take (i + 1)).map attemptRecord)
    rw [hacclen] at hnext0
    have hnext : (FallbackChain.complete ps).attempts[i + 1]? =
        some (attemptRecord ps[i + 1]) := by
      unfold FallbackChain.complete
      rw [hrun]
      exact hnext0
    refine ⟨⟨fun hEq => ?_, fun h => absurd h hlen⟩, fun _ => hnext⟩
    exfalso
    rw [hEq] at hnext
    have hlt : i + 1 < ((ps.take (i + 1)).map attemptRecord).length := by
      have := hnext
      unfold CompleteOutcome.attempts at this
      exact (List.getElem?_eq_some.mp this).1
    rw [List.length_map, List.length_take,
      Nat.min_eq_left (Nat.le_of_lt h2')] at hlt
    omega

/-- **C3**: if all `k ≥ 1` backends of a duplicate-free chain fail with a
classified backend error, `complete` raises `AllProvidersFailed` carrying
one failure record per backend in configured order (length exactly `k`),
and the raised error's text contains every backend's own failure
message as a substring. -/
theorem complete_all_fail_diagnostics
    (ps : List Provider) (_hne : ps ≠ []) (hnd : ps.Nodup)
    (hfail : ∀ q ∈ ps, q.errOf.isSome) :
    FallbackChain.complete ps = .allProvidersFailed (ps.map attemptRecord) ∧
    (ps.map attemptRecord).length = ps.length ∧
    ∀ q ∈ ps, ∀ e, q.behavior = .fails e →
      e.message.data <:+:
        (allProvidersFailedMessage (ps.map attemptRecord)).data := by
  refine ⟨?_, List.length_map ps attemptRecord, ?_⟩
  · unfold FallbackChain.complete
    rw [completeAux_all_fail hnd ps [] (List.suffix_refl ps) hfail,
      List.nil_append]
  · intro q hq e he
    have hpiece : (q.name ++ ": " ++ e.str) ∈ errorPieces (ps.map attemptRecord) := by
      unfold errorPieces
      apply List.mem_filterMap.mpr
      refine ⟨attemptRecord q, List.mem_map_of_mem attemptRecord hq, ?_⟩
      rw [attemptRecord_fails he]
      show (if e.str = "" then none else some (q.name ++ ": " ++ e.str)) =
        some (q.name ++ ": " ++ e.str)
      rw [if_neg (ProviderError.str_ne_empty e)]
    have hjoin := joinSemicolon_infix _ _ hpiece
    have hmsg : e.message.data <:+: (q.name ++ ": " ++ e.str).data := by
      refine ⟨(q.name ++ ": ").data ++ (e.provider ++ ": ").data, [], ?_⟩
      simp [String.data_append, ProviderError.str]
    have := hmsg.trans hjoin
    unfold allProvidersFailedMessage
    rw [String.data_append]
    exact infix_append_left_string _ this

/-- **C10**: with an empty provider list, `complete` invokes no backend
and raises `AllProvidersFailedError` with an empty attempts list; the
error message names no backend. -/
theorem complete_empty_provider_list :
    FallbackChain.complete [] = .allProvidersFailed [] ∧
    allProvidersFailedMessage [] = "All providers failed: " := by
  refine ⟨rfl, ?_⟩
  show "All providers failed: " ++ joinSemicolon [] = "All providers failed: "
  decide

/-! ### Concrete providers for the witnesses -/

/-- A concrete completion result used by the witnesses. -/
def wResult : CompletionResult :=
  { content := "hello", provider := "gemini", model := "gemini-1.5-flash",
    input_tokens := 12, output_tokens := 4, latency_ms := 250, cost_usd := 0 }

/-- A provider failing with a retryable rate-limit error. -/
def wProvA : Provider :=
  { name := "groq",
    behavior := .fails
      { provider := "groq", message := "Rate limit exceeded",
        status_code := some 429, retryable := true } }

/-- A provider that succeeds. -/
def wProvB : Provider :=
  { name := "gemini", behavior := .succeeds wResult }

/-- A provider failing with a non-retryable bad-request error. -/
def wProvC : Provider :=
  { name := "openai",
    behavior := .fails
      { provider := "openai", message := "Invalid request",
        status_code := some 400, retryable := false } }

/-- Witness for C1: chain `[wProvA, wProvB]`, first backend fails, second
succeeds; the outcome carries the success result after one failure. -/
theorem complete_first_success_short_circuits_witness :
    FallbackChain.complete [wProvA, wProvB] =
      .ok { result := wResult,
            attempts := [attemptRecord wProvA, successAttempt wProvB] } :=
  (complete_first_success_short_circuits [wProvA, wProvB] (by decide) 1
    (by decide) wResult (by decide) (by decide)).1

/-- Witness for C2: a sole backend failing non-retryably aborts with one
attempt. -/
theorem complete_nonretryable_abort_iff_last_witness :
    FallbackChain.complete [wProvC] =
      .allProvidersFailed [attemptRecord wProvC] :=
  ((complete_nonretryable_abort_iff_last [wProvC] (by decide) 0 (by decide)
    { provider := "openai", message := "Invalid request",
      status_code := some 400, retryable := false }
    (by decide) (by decide) (by decide)).1).mpr rfl

/-- Witness for C3: two failing backends produce two failure records. -/
theorem complete_all_fail_diagnostics_witness :
    FallbackChain.complete [wProvA, wProvC] =
      .allProvidersFailed [attemptRecord wProvA, attemptRecord wProvC] :=
  (complete_all_fail_diagnostics [wProvA, wProvC] (by decide) (by decide)
    (by decide)).1

/-! ## Session storage (`unified_ai/storage/session.py`)

`ProductType` is a string enum; it is modelled by its `.value` string.
Python dicts are modelled as insertion-ordered association lists. -/

/-- A conversation session (`Session` in `session.py`); `datetime` fields
are modelled as `Nat` timestamps, `metadata` as a string map. -/
structure Session where
  session_id : String
  product : String
  messages : List Message
  created_at : Nat
  updated_at : Nat
  metadata : List (String × String)
deriving DecidableEq, Repr

/-- `Session.add_message`: appends the message and sets `updated_at` to
`datetime.utcnow()`, passed here explicitly as `now`. -/
def Session.add_message (s : Session) (m : Message) (now : Nat) : Session :=
  { s with messages := s.messages ++ [m], updated_at := now }

/-- Python dict read `d.get(k)` on an insertion-ordered association list. -/
def dictGet {α : Type} : List (String × α) → String → Option α
  | [], _ => none
  | e :: rest, k => if e.1 = k then some e.2 else dictGet rest k

/-- Python dict write `d[k] = v`: replaces in place if the key is present
(keeping its position), otherwise appends at the end. -/
def dictInsert {α : Type} : List (String × α) → String → α → List (String × α)
  | [], k, v => [(k, v)]
  | e :: rest, k, v => if e.1 = k then (k, v) :: rest else e :: dictInsert rest k v

/-- Python dict delete `del d[k]` (first occurrence). -/
def eraseKey {α : Type} : List (String × α) → String → List (String × α)
  | [], _ => []
  | e :: rest, k => if e.1 = k then rest else e :: eraseKey rest k

/-- `min(self._sessions.keys(), key=lambda k: self._sessions[k].updated_at)`
over the dict in insertion order: the leftmost entry with the smallest
`updated_at` (Python `min` keeps the first minimum on ties). -/
def minEntry : List (String × Session) → Option (String × Session)
  | [] => none
  | e :: rest =>
    match minEntry rest with
    | none => some e
    | some m => some (if m.2.updated_at < e.2.updated_at then m else e)

/-- `InMemorySessionStorage._make_key`: `f"{product.value}:{session_id}"`. -/
def makeKey (session_id product : String) : String :=
  product ++ ":" ++ session_id

/-- In-memory session storage for development
(`InMemorySessionStorage`). -/
structure InMemorySessionStorage where
  sessions : List (String × Session)
  max_sessions : Nat
deriving DecidableEq, Repr

/-- `InMemorySessionStorage.get`. -/
def InMemorySessionStorage.get (st : InMemorySessionStorage)
    (session_id product : String) : Option Session :=
  dictGet st.sessions (makeKey session_id product)

/-- `InMemorySessionStorage.save` (lines 92-104 of `session.py`):
if the key is new and the store is at capacity, evict the entry with the
smallest `updated_at`, then insert. `none` models the `ValueError` that
Python's `min` raises on an empty dict (only possible when
`max_sessions = 0`). -/
def InMemorySessionStorage.save (st : InMemorySessionStorage) (s : Session) :
    Option InMemorySessionStorage :=
  if dictGet st.sessions (makeKey s.session_id s.product) = none ∧
      st.max_sessions ≤ st.sessions.length then
    match minEntry st.sessions with
    | none => none
    | some m =>
      some (InMemorySessionStorage.mk
        (dictInsert (eraseKey st.sessions m.1)
          (makeKey s.session_id s.product) s)
        st.max_sessions)
  else
    some (InMemorySessionStorage.mk
      (dictInsert st.sessions (makeKey s.session_id s.product) s)
      st.max_sessions)

/-- `InMemorySessionStorage.delete`: removes the key if present and
reports whether it was. -/
def InMemorySessionStorage.delete (st : InMemorySessionStorage)
    (session_id product : String) : InMemorySessionStorage × Bool :=
  if dictGet st.sessions (makeKey session_id product) ≠ none then
    (InMemorySessionStorage.mk
      (eraseKey st.sessions (makeKey session_id product)) st.max_sessions,
      true)
  else
    (st, false)

/-- `Message.to_dict()`: `{"role": ..., "content": ...}`. -/
structure MessageDict where
  role : String
  content : String
deriving DecidableEq, Repr

/-- `Message.to_dict`. -/
def Message.to_dict (m : Message) : MessageDict :=
  { role := m.role, content := m.content }

/-- `Message(**m)` applied to a serialized message dict. -/
def messageOfDict (d : MessageDict) : Message :=
  { role := d.role, content := d.content }

/-- The JSON record `RedisSessionStorage.save` writes (lines 190-198 of
`session.py`). `created_at`/`updated_at` are stored with `.isoformat()`
and read back with `datetime.fromisoformat`, an exact round-trip, so they
are modelled as the timestamps themselves. -/
structure SessionData where
  session_id : String
  product : String
  messages : List MessageDict
  created_at : Nat
  updated_at : Nat
  metadata : List (String × String)
deriving DecidableEq, Repr

/-- Serialization performed by `RedisSessionStorage.save`. -/
def serializeSession (s : Session) : SessionData :=
  { session_id := s.session_id, product := s.product,
    messages := s.messages.map Message.to_dict,
    created_at := s.created_at, updated_at := s.updated_at,
    metadata := s.metadata }

/-- Deserialization performed by `RedisSessionStorage.get`
(lines 173-181 of `session.py`). -/
def deserializeSession (d : SessionData) : Session :=
  { session_id := d.session_id, product := d.product,
    messages := d.messages.map messageOfDict,
    created_at := d.created_at, updated_at := d.updated_at,
    metadata := d.metadata }

/-- `RedisSessionStorage._make_key`: `f"session:{product.value}:{session_id}"`. -/
def redisMakeKey (session_id product : String) : String :=
  "session:" ++ product ++ ":" ++ session_id

/-- Redis session storage (`RedisSessionStorage`), modelled as the key
space it touches: each key holds a serialized record and the TTL set by
`setex`. -/
structure RedisSessionStorage where
  entries : List (String × SessionData × Nat)
  ttl : Nat
deriving DecidableEq, Repr

/-- `RedisSessionStorage.get`: fetch and deserialize. -/
def RedisSessionStorage.get (st : RedisSessionStorage)
    (session_id product : String) : Option Session :=
  (dictGet st.entries (redisMakeKey session_id product)).map
    fun e => deserializeSession e.1

/-- `RedisSessionStorage.save`: serialize and `setex` with the store TTL. -/
def RedisSessionStorage.save (st : RedisSessionStorage) (s : Session) :
    RedisSessionStorage :=
  RedisSessionStorage.mk
    (dictInsert st.entries (redisMakeKey s.session_id s.product)
      (serializeSession s, st.ttl))
    st.ttl

/-- `RedisSessionStorage.delete`: `client.delete(key)` removes the key and
returns the number removed; the method returns `result > 0`. -/
def RedisSessionStorage.delete (st : RedisSessionStorage)
    (session_id product : String) : RedisSessionStorage × Bool :=
  if dictGet st.entries (redisMakeKey session_id product) ≠ none then
    (RedisSessionStorage.mk
      (eraseKey st.entries (redisMakeKey session_id product)) st.ttl,
      true)
  else
    (st, false)

/-! ### Association list lemmas -/

/-- Reading back the key just written. -/
theorem dictGet_dictInsert_self {α : Type} :
    ∀ (l : List (String × α)) (k : String) (v : α),
      dictGet (dictInsert l k v) k = some v
  | [], k, v => by simp [dictGet, dictInsert]
  | e :: rest, k, v => by
    by_cases h : e.1 = k
    · simp [dictGet, dictInsert, h]
    · simp [dictGet, dictInsert, h]
      exact dictGet_dictInsert_self rest k v

/-- Writing one key leaves the others unchanged. -/
theorem dictGet_dictInsert_ne {α : Type} :
    ∀ (l : List (String × α)) (k k' : String) (v : α), k' ≠ k →
      dictGet (dictInsert l k v) k' = dictGet l k'
  | [], k, k', v, hne => by
    simp [dictInsert, dictGet, Ne.symm hne]
  | e :: rest, k, k', v, hne => by
    by_cases h : e.1 = k
    · rw [dictInsert, if_pos h, dictGet,
        if_neg (fun hk : k = k' => hne hk.symm),
        dictGet, if_neg (fun he : e.1 = k' => hne (he.symm.trans h))]
    · rw [dictInsert, if_neg h, dictGet, dictGet]
      by_cases h' : e.1 = k'
      · rw [if_pos h', if_pos h']
      · rw [if_neg h', if_neg h']
        exact dictGet_dictInsert_ne rest k k' v hne

/-- An absent key is still absent after erasing any key. -/
theorem dictGet_eraseKey_none {α : Type} :
    ∀ (l : List (String × α)) (k k' : String), dictGet l k = none →
      dictGet (eraseKey l k') k = none
  | [], _, _, _ => rfl
  | e :: rest, k, k', h => by
    rw [dictGet] at h
    by_cases he : e.1 = k
    · rw [if_pos he] at h
      exact absurd h (by simp)
    · rw [if_neg he] at h
      rw [eraseKey]
      by_cases he' : e.1 = k'
      · rw [if_pos he']
        exact h
      · rw [if_neg he', dictGet, if_neg he]
        exact dictGet_eraseKey_none rest k k' h

/-- Erasing a key leaves the other keys unchanged. -/
theorem dictGet_eraseKey_ne {α : Type} :
    ∀ (l : List (String × α)) (k k' : String), k' ≠ k →
      dictGet (eraseKey l k) k' = dictGet l k'
  | [], _, _, _ => rfl
  | e :: rest, k, k', hne => by
    rw [eraseKey]
    by_cases he : e.1 = k
    · rw [if_pos he]
      conv_rhs => rw [dictGet, if_neg (fun h => hne (h.symm.trans he))]
    · rw [if_neg he, dictGet, dictGet]
      by_cases he' : e.1 = k'
      · rw [if_pos he', if_pos he']
      · rw [if_neg he', if_neg he']
        exact dictGet_eraseKey_ne rest k k' hne

/-- A key not among the keys of the list reads as `none`. -/
theorem dictGet_eq_none_of_not_mem {α : Type} :
    ∀ (l : List (String × α)) (k : String), k ∉ l.map Prod.fst →
      dictGet l k = none
  | [], _, _ => rfl
  | e :: rest, k, h => by
    rw [List.map_cons, List.mem_cons, not_or] at h
    rw [dictGet, if_neg (fun he => h.1 he.symm)]
    exact dictGet_eq_none_of_not_mem rest k h.2

/-- With duplicate-free keys, erasing a key makes it absent. -/
theorem dictGet_eraseKey_self {α : Type} :
    ∀ (l : List (String × α)) (k : String), (l.map Prod.fst).Nodup →
      dictGet (eraseKey l k) k = none
  | [], _, _ => rfl
  | e :: rest, k, hnd => by
    rw [List.map_cons, List.nodup_cons] at hnd
    rw [eraseKey]
    by_cases he : e.1 = k
    · rw [if_pos he]
      exact dictGet_eq_none_of_not_mem rest k (he ▸ hnd.1)
    · rw [if_neg he, dictGet, if_neg he]
      exact dictGet_eraseKey_self rest k hnd.2

/-- Inserting a fresh key appends: the length grows by one. -/
theorem length_dictInsert_fresh {α : Type} :
    ∀ (l : List (String × α)) (k : String) (v : α), dictGet l k = none →
      (dictInsert l k v).length = l.length + 1
  | [], _, _, _ => rfl
  | e :: rest, k, v, h => by
    rw [dictGet] at h
    by_cases he : e.1 = k
    · rw [if_pos he] at h
      exact absurd h (by simp)
    · rw [if_neg he] at h
      rw [dictInsert, if_neg he, List.length_cons, List.length_cons,
        length_dictInsert_fresh rest k v h]

/-- Overwriting a present key keeps the length. -/
theorem length_dictInsert_present {α : Type} :
    ∀ (l : List (String × α)) (k : String) (v : α), dictGet l k ≠ none →
      (dictInsert l k v).length = l.length
  | [], _, _, h => absurd rfl h
  | e :: rest, k, v, h => by
    rw [dictGet] at h
    by_cases he : e.1 = k
    · rw [dictInsert, if_pos he, List.length_cons, List.length_cons]
    · rw [if_neg he] at h
      rw [dictInsert, if_neg he, List.length_cons, List.length_cons,
        length_dictInsert_present rest k v h]

/-- Erasing a present key shrinks the length by one. -/
theorem length_eraseKey_present {α : Type} :
    ∀ (l : List (String × α)) (k : String), dictGet l k ≠ none →
      (eraseKey l k).length + 1 = l.length
  | [], _, h => absurd rfl h
  | e :: rest, k, h => by
    rw [dictGet] at h
    by_cases he : e.1 = k
    · rw [eraseKey, if_pos he, List.length_cons]
    · rw [if_neg he] at h
      rw [eraseKey, if_neg he, List.length_cons, List.length_cons,
        length_eraseKey_present rest k h]

/-- Erasing never grows the list. -/
theorem length_eraseKey_le {α : Type} :
    ∀ (l : List (String × α)) (k : String), (eraseKey l k).length ≤ l.length
  | [], _ => Nat.le_refl 0
  | e :: rest, k => by
    rw [eraseKey]
    by_cases he : e.1 = k
    · rw [if_pos he]
      exact Nat.le_succ_of_le (Nat.le_refl _)
    · rw [if_neg he, List.length_cons, List.length_cons]
      exact Nat.succ_le_succ (length_eraseKey_le rest k)

/-- Unfolding `minEntry` on a cons whose tail has a minimum. -/
theorem minEntry_cons (e : String × Session) (rest : List (String × Session))
    (m : String × Session) (hm : minEntry rest = some m) :
    minEntry (e :: rest) =
      some (if m.2.updated_at < e.2.updated_at then m else e) := by
  conv_lhs => unfold minEntry
  rw [hm]

/-- `minEntry` of a nonempty dict exists, is an entry, and has the
smallest `updated_at`. -/
theorem minEntry_spec :
    ∀ (l : List (String × Session)), l ≠ [] →
      ∃ m, minEntry l = some m ∧ m ∈ l ∧
        ∀ e ∈ l, m.2.updated_at ≤ e.2.updated_at
  | [], h => absurd rfl h
  | e :: rest, _ => by
    rcases hr : rest with _ | ⟨e', rest'⟩
    · exact ⟨e, rfl, List.mem_singleton_self e,
        fun x hx => by rw [List.mem_singleton.mp hx]⟩
    · obtain ⟨m, hm, hmem, hmin⟩ := minEntry_spec (e' :: rest') (by simp)
      by_cases hlt : m.2.updated_at < e.2.updated_at
      · refine ⟨m, ?_, List.mem_cons_of_mem e hmem, ?_⟩
        · rw [minEntry_cons e _ m hm, if_pos hlt]
        · intro x hx
          rcases List.mem_cons.mp hx with hx | hx
          · rw [hx]
            exact Nat.le_of_lt hlt
          · exact hmin x hx
      · refine ⟨e, ?_, List.mem_cons_self e _, ?_⟩
        · rw [minEntry_cons e _ m hm, if_neg hlt]
        · intro x hx
          rcases List.mem_cons.mp hx with hx | hx
          · rw [hx]
          · exact Nat.le_trans (Nat.le_of_not_lt hlt) (hmin x hx)

/-- A member's key reads back as some value. -/
theorem dictGet_ne_none_of_mem {α : Type} :
    ∀ (l : List (String × α)) (m : String × α), m ∈ l →
      dictGet l m.1 ≠ none
  | [], m, h => absurd h (List.not_mem_nil m)
  | e :: rest, m, h => by
    rw [dictGet]
    by_cases he : e.1 = m.1
    · rw [if_pos he]
      simp
    · rw [if_neg he]
      rcases List.mem_cons.mp h with h | h
      · exact absurd (h ▸ rfl) he
      · exact dictGet_ne_none_of_mem rest m h

/-! ### Storage lemmas -/

/-- After a successful `save`, reading the saved key returns exactly the
session that was passed in (the in-memory store keeps the object as is). -/
theorem inmemory_save_get (st st' : InMemorySessionStorage) (s : Session)
    (hsave : st.save s = some st') :
    st'.get s.session_id s.product = some s := by
  unfold InMemorySessionStorage.save at hsave
  by_cases hc : dictGet st.sessions (makeKey s.session_id s.product) = none ∧
      st.max_sessions ≤ st.sessions.length
  · rw [if_pos hc] at hsave
    cases hmin : minEntry st.sessions with
    | none =>
      rw [hmin] at hsave
      exact absurd hsave (by simp)
    | some m =>
      rw [hmin] at hsave
      cases hsave
      exact dictGet_dictInsert_self _ _ _
  · rw [if_neg hc] at hsave
    cases hsave
    exact dictGet_dictInsert_self _ _ _

/-- Round-trip of a message through `to_dict` and `Message(**m)`. -/
theorem messageOfDict_to_dict :
    ∀ (ms : List Message), (ms.map Message.to_dict).map messageOfDict = ms
  | [] => rfl
  | m :: rest => by
    rw [List.map_cons, List.map_cons, messageOfDict_to_dict rest]
    rfl

/-- The Redis serialization round-trips field-for-field. -/
theorem deserializeSession_serializeSession (s : Session) :
    deserializeSession (serializeSession s) = s := by
  unfold deserializeSession serializeSession
  rw [messageOfDict_to_dict]

/-- Saving to Redis and reading the key back returns the session. -/
theorem redis_save_get (r : RedisSessionStorage) (s : Session) :
    (r.save s).get s.session_id s.product = some s := by
  unfold RedisSessionStorage.save RedisSessionStorage.get
  rw [dictGet_dictInsert_self]
  show some (deserializeSession (serializeSession s)) = some s
  rw [deserializeSession_serializeSession]

/-- In-memory `delete` returns `true` exactly on present keys. -/
theorem inmemory_delete_true_iff (st : InMemorySessionStorage)
    (sid prod : String) :
    (st.delete sid prod).2 = true ↔ st.get sid prod ≠ none := by
  unfold InMemorySessionStorage.delete InMemorySessionStorage.get
  by_cases h : dictGet st.sessions (makeKey sid prod) ≠ none
  · rw [if_pos h]
    simpa using h
  · rw [if_neg h]
    simpa using h

/-- In-memory `delete` leaves the key absent (duplicate-free keys). -/
theorem inmemory_delete_get_none (st : InMemorySessionStorage)
    (sid prod : String) (hkeys : (st.sessions.map Prod.fst).Nodup) :
    (st.delete sid prod).1.get sid prod = none := by
  unfold InMemorySessionStorage.delete InMemorySessionStorage.get
  by_cases h : dictGet st.sessions (makeKey sid prod) ≠ none
  · rw [if_pos h]
    exact dictGet_eraseKey_self st.sessions (makeKey sid prod) hkeys
  · rw [if_neg h]
    exact not_not.mp h

/-- Redis `delete` returns `true` exactly on present keys. -/
theorem redis_delete_true_iff (r : RedisSessionStorage) (sid prod : String) :
    (r.delete sid prod).2 = true ↔ r.get sid prod ≠ none := by
  unfold RedisSessionStorage.delete RedisSessionStorage.get
  by_cases h : dictGet r.entries (redisMakeKey sid prod) ≠ none
  · rw [if_pos h]
    simp only [true_iff]
    intro hmap
    exact h (Option.map_eq_none.mp hmap)
  · rw [if_neg h]
    simp only [Bool.false_eq_true, false_iff, not_not]
    rw [not_not.mp h]
    rfl

/-- Redis `delete` leaves the key absent (duplicate-free keys). -/
theorem redis_delete_get_none (r : RedisSessionStorage) (sid prod : String)
    (hkeys : (r.entries.map Prod.fst).Nodup) :
    (r.delete sid prod).1.get sid prod = none := by
  unfold RedisSessionStorage.delete RedisSessionStorage.get
  by_cases h : dictGet r.entries (redisMakeKey sid prod) ≠ none
  · rw [if_pos h, dictGet_eraseKey_self r.entries (redisMakeKey sid prod) hkeys]
    rfl
  · rw [if_neg h, not_not.mp h]
    rfl


/-! ### Claim theorems for the session stores -/

/-- A session whose `updated_at` is 5. -/
def cSessA : Session :=
  { session_id := "abc", product := "chatbot", messages := [],
    created_at := 0, updated_at := 5, metadata := [] }

/-- A later write to the same key whose `updated_at` is 3. -/
def cSessB : Session :=
  { session_id := "abc", product := "chatbot", messages := [],
    created_at := 0, updated_at := 3, metadata := [] }

/-- The empty in-memory store at the default capacity. -/
def cStoreEmpty : InMemorySessionStorage :=
  { sessions := [], max_sessions := 10000 }

/-- The store after saving `cSessA`. -/
def cStoreA : InMemorySessionStorage :=
  { sessions := [("chatbot:abc", cSessA)], max_sessions := 10000 }

/-- The store after then saving `cSessB`. -/
def cStoreB : InMemorySessionStorage :=
  { sessions := [("chatbot:abc", cSessB)], max_sessions := 10000 }

/-- **C4, counterexample**: `save` does not update `updated_at` — the
store keeps the session's own timestamp, so a second save of the same
key can strictly decrease the stored `updated_at` (5, then 3), refuting
both "save updates `updated_at`" and "updated_at is monotonically
non-decreasing per session across operations" as store guarantees. -/
theorem save_does_not_update_updated_at :
    cStoreEmpty.save cSessA = some cStoreA ∧
    cStoreA.save cSessB = some cStoreB ∧
    cStoreB.get "abc" "chatbot" = some cSessB ∧
    cSessB.updated_at = 3 ∧ cSessA.updated_at = 5 := by
  refine ⟨?_, ?_, ?_, rfl, rfl⟩ <;> decide

/-- **C4, amended**: for both store variants, `save(session)` overwrites
any existing entry at the same (product, id) key and stores the session
with its `updated_at` unchanged; `updated_at` is advanced only by
`Session.add_message`, which sets it to the current time — so it is
non-decreasing per session whenever the clock is. -/
theorem save_overwrites_and_preserves_updated_at
    (st st' : InMemorySessionStorage) (s : Session)
    (hsave : st.save s = some st')
    (r : RedisSessionStorage) (s2 : Session)
    (s3 : Session) (m : Message) (now : Nat)
    (hclock : s3.updated_at ≤ now) :
    st'.get s.session_id s.product = some s ∧
    (r.save s2).get s2.session_id s2.product = some s2 ∧
    (s3.add_message m now).updated_at = now ∧
    s3.updated_at ≤ (s3.add_message m now).updated_at :=
  ⟨inmemory_save_get st st' s hsave, redis_save_get r s2, rfl, hclock⟩

/-- Witness store for the amended C4 / the round-trip claims. -/
def wRedisEmpty : RedisSessionStorage :=
  { entries := [], ttl := 86400 }

/-- Witness for the amended C4 at concrete inputs. -/
theorem save_overwrites_and_preserves_updated_at_witness :
    cStoreA.get "abc" "chatbot" = some cSessA ∧
    (wRedisEmpty.save cSessA).get "abc" "chatbot" = some cSessA ∧
    (cSessA.add_message { role := "user", content := "hi" } 7).updated_at = 7 ∧
    cSessA.updated_at ≤
      (cSessA.add_message { role := "user", content := "hi" } 7).updated_at :=
  save_overwrites_and_preserves_updated_at cStoreEmpty cStoreA cSessA
    (by decide) wRedisEmpty cSessA cSessA { role := "user", content := "hi" } 7
    (by decide)

/-- **C5**: bounded in-memory store with capacity `N = max_sessions`:
saving a fresh key at capacity evicts exactly the one (leftmost) entry
with the smallest `updated_at` and the size stays `N`; saving a present
key evicts nothing and keeps the size; no `save` or `delete` ever takes
the size beyond `N`. -/
theorem inmemory_bounded_lru_eviction :
    (∀ (st : InMemorySessionStorage) (s : Session),
      st.get s.session_id s.product = none →
      st.sessions.length = st.max_sessions → 0 < st.max_sessions →
      ∃ m, minEntry st.sessions = some m ∧ m ∈ st.sessions ∧
        (∀ e ∈ st.sessions, m.2.updated_at ≤ e.2.updated_at) ∧
        st.save s = some (InMemorySessionStorage.mk
          (dictInsert (eraseKey st.sessions m.1)
            (makeKey s.session_id s.product) s) st.max_sessions) ∧
        (∀ st', st.save s = some st' →
          st'.sessions.length = st.max_sessions)) ∧
    (∀ (st : InMemorySessionStorage) (s : Session),
      st.get s.session_id s.product ≠ none →
      st.save s = some (InMemorySessionStorage.mk
        (dictInsert st.sessions (makeKey s.session_id s.product) s)
        st.max_sessions) ∧
      (∀ st', st.save s = some st' →
        st'.sessions.length = st.sessions.length)) ∧
    (∀ (st : InMemorySessionStorage) (s : Session) (st' : InMemorySessionStorage),
      st.sessions.length ≤ st.max_sessions → st.save s = some st' →
      st'.sessions.length ≤ st.max_sessions) ∧
    (∀ (st : InMemorySessionStorage) (sid prod : String),
      st.sessions.length ≤ st.max_sessions →
      ((st.delete sid prod).1).sessions.length ≤ st.max_sessions) := by
  refine ⟨?_, ?_, ?_, ?_⟩
  · intro st s hfresh hcap hpos
    unfold InMemorySessionStorage.get at hfresh
    have hne : st.sessions ≠ [] := by
      intro h
      rw [h] at hcap
      simp at hcap
      omega
    obtain ⟨m, hm, hmem, hmin⟩ := minEntry_spec st.sessions hne
    have hsave : st.save s = some (InMemorySessionStorage.mk
        (dictInsert (eraseKey st.sessions m.1)
          (makeKey s.session_id s.product) s) st.max_sessions) := by
      unfold InMemorySessionStorage.save
      rw [if_pos ⟨hfresh, Nat.le_of_eq hcap.symm⟩, hm]
    refine ⟨m, hm, hmem, hmin, hsave, ?_⟩
    intro st' hsave'
    rw [hsave] at hsave'
    cases hsave'
    show (dictInsert (eraseKey st.sessions m.1)
      (makeKey s.session_id s.product) s).length = st.max_sessions
    rw [length_dictInsert_fresh _ _ _
      (dictGet_eraseKey_none st.sessions _ _ hfresh),
      length_eraseKey_present st.sessions m.1
        (dictGet_ne_none_of_mem st.sessions m hmem), hcap]
  · intro st s hpresent
    unfold InMemorySessionStorage.get at hpresent
    have hsave : st.save s = some (InMemorySessionStorage.mk
        (dictInsert st.sessions (makeKey s.session_id s.product) s)
        st.max_sessions) := by
      unfold InMemorySessionStorage.save
      rw [if_neg (fun hc => hpresent hc.1)]
    refine ⟨hsave, ?_⟩
    intro st' hsave'
    rw [hsave] at hsave'
    cases hsave'
    exact length_dictInsert_present st.sessions _ s hpresent
  · intro st s st' hle hsave
    unfold InMemorySessionStorage.save at hsave
    by_cases hc : dictGet st.sessions (makeKey s.session_id s.product) = none ∧
        st.max_sessions ≤ st.sessions.length
    · rw [if_pos hc] at hsave
      cases hmin : minEntry st.sessions with
      | none =>
        rw [hmin] at hsave
        exact absurd hsave (by simp)
      | some m =>
        rw [hmin] at hsave
        cases hsave
        obtain ⟨-, hmem, -⟩ := minEntry_spec st.sessions
          (by intro h; rw [h] at hmin; exact absurd hmin (by simp [minEntry]))
        show (dictInsert (eraseKey st.sessions m.1)
          (makeKey s.session_id s.product) s).length ≤ st.max_sessions
        rw [length_dictInsert_fresh _ _ _
          (dictGet_eraseKey_none st.sessions _ _ hc.1)]
        have hm' : m ∈ st.sessions := by
          have hspec := minEntry_spec st.sessions
            (by intro h; rw [h] at hmin; exact absurd hmin (by simp [minEntry]))
          obtain ⟨m', hm', hmem', -⟩ := hspec
          rw [hmin] at hm'
          cases hm'
          exact hmem'
        rw [length_eraseKey_present st.sessions m.1
          (dictGet_ne_none_of_mem st.sessions m hm')]
        exact hle
    · rw [if_neg hc] at hsave
      cases hsave
      show (dictInsert st.sessions (makeKey s.session_id s.product) s).length ≤
        st.max_sessions
      by_cases hk : dictGet st.sessions (makeKey s.session_id s.product) = none
      · have hlt : st.sessions.length < st.max_sessions := by
          rcases Nat.lt_or_ge st.sessions.length st.max_sessions with h | h
          · exact h
          · exact absurd ⟨hk, h⟩ hc
        rw [length_dictInsert_fresh _ _ _ hk]
        omega
      · rw [length_dictInsert_present _ _ _ hk]
        exact hle
  · intro st sid prod hle
    unfold InMemorySessionStorage.delete
    by_cases h : dictGet st.sessions (makeKey sid prod) ≠ none
    · rw [if_pos h]
      exact Nat.le_trans (length_eraseKey_le st.sessions _) hle
    · rw [if_neg h]
      exact hle

/-- A full two-entry store at capacity 2 for the C5 witness;
`"chatbot:s1"` holds the oldest session (`updated_at = 10`). -/
def wStoreFull : InMemorySessionStorage :=
  { sessions :=
      [("chatbot:s1",
        { session_id := "s1", product := "chatbot", messages := [],
          created_at := 0, updated_at := 10, metadata := [] }),
       ("chatbot:s2",
        { session_id := "s2", product := "chatbot", messages := [],
          created_at := 0, updated_at := 20, metadata := [] })],
    max_sessions := 2 }

/-- A fresh third session to trigger eviction. -/
def wSess3 : Session :=
  { session_id := "s3", product := "chatbot", messages := [],
    created_at := 0, updated_at := 15, metadata := [] }

/-- Witness for C5: at capacity, saving a fresh key evicts the
smallest-`updated_at` entry and the size stays at capacity. -/
theorem inmemory_bounded_lru_eviction_witness :
    ∃ m, minEntry wStoreFull.sessions = some m ∧ m ∈ wStoreFull.sessions ∧
      (∀ e ∈ wStoreFull.sessions, m.2.updated_at ≤ e.2.updated_at) ∧
      wStoreFull.save wSess3 = some (InMemorySessionStorage.mk
        (dictInsert (eraseKey wStoreFull.sessions m.1)
          (makeKey wSess3.session_id wSess3.product) wSess3)
        wStoreFull.max_sessions) ∧
      (∀ st', wStoreFull.save wSess3 = some st' →
        st'.sessions.length = wStoreFull.max_sessions) :=
  inmemory_bounded_lru_eviction.1 wStoreFull wSess3 (by decide) (by decide)
    (by decide)

/-- **C9**: for both variants, `save` then `get` returns the session
field-for-field; `delete` returns `true` exactly on present keys, and a
`get` after a `delete` finds nothing (on stores with duplicate-free
keys, as all reachable stores are). -/
theorem storage_round_trip_and_delete
    (st st' : InMemorySessionStorage) (s : Session)
    (hsave : st.save s = some st')
    (st2 : InMemorySessionStorage) (sid prod : String)
    (hkeys2 : (st2.sessions.map Prod.fst).Nodup)
    (r : RedisSessionStorage) (s2 : Session)
    (r2 : RedisSessionStorage) (sid2 prod2 : String)
    (hkeysr : (r2.entries.map Prod.fst).Nodup) :
    st'.get s.session_id s.product = some s ∧
    (r.save s2).get s2.session_id s2.product = some s2 ∧
    ((st2.delete sid prod).2 = true ↔ st2.get sid prod ≠ none) ∧
    (st2.delete sid prod).1.get sid prod = none ∧
    ((r2.delete sid2 prod2).2 = true ↔ r2.get sid2 prod2 ≠ none) ∧
    (r2.delete sid2 prod2).1.get sid2 prod2 = none :=
  ⟨inmemory_save_get st st' s hsave, redis_save_get r s2,
    inmemory_delete_true_iff st2 sid prod,
    inmemory_delete_get_none st2 sid prod hkeys2,
    redis_delete_true_iff r2 sid2 prod2,
    redis_delete_get_none r2 sid2 prod2 hkeysr⟩

/-- One-entry Redis store for the C9 witness. -/
def wRedisOne : RedisSessionStorage :=
  { entries := [("session:chatbot:abc", (serializeSession cSessA, 86400))],
    ttl := 86400 }

/-- Witness for C9 at concrete inputs: round trips and deletes on both
variants. -/
theorem storage_round_trip_and_delete_witness :
    cStoreA.get "abc" "chatbot" = some cSessA ∧
    (wRedisEmpty.save cSessA).get "abc" "chatbot" = some cSessA ∧
    ((cStoreA.delete "abc" "chatbot").2 = true ↔
      cStoreA.get "abc" "chatbot" ≠ none) ∧
    (cStoreA.delete "abc" "chatbot").1.get "abc" "chatbot" = none ∧
    ((wRedisOne.delete "abc" "chatbot").2 = true ↔
      wRedisOne.get "abc" "chatbot" ≠ none) ∧
    (wRedisOne.delete "abc" "chatbot").1.get "abc" "chatbot" = none :=
  storage_round_trip_and_delete cStoreEmpty cStoreA cSessA (by decide)
    cStoreA "abc" "chatbot" (by decide) wRedisEmpty cSessA
    wRedisOne "abc" "chatbot" (by decide)


/-! ## Cost estimation (`unified_ai/core/providers/groq.py`)

Prices are per 1M tokens; Python floats are modelled as exact rationals. -/

/-- `GROQ_PRICING` (lines 23-29 of `groq.py`): input/output USD per 1M
tokens per model. -/
def GROQ_PRICING : List (String × ℚ × ℚ) :=
  [("llama-3.3-70b-versatile", (0.59, 0.79)),
   ("llama-3.1-70b-versatile", (0.59, 0.79)),
   ("llama-3.1-8b-instant", (0.05, 0.08)),
   ("mixtral-8x7b-32768", (0.24, 0.24)),
   ("gemma2-9b-it", (0.20, 0.20))]

/-- `DEFAULT_PRICING` for unknown models (line 32 of `groq.py`). -/
def DEFAULT_PRICING : ℚ × ℚ := (0.50, 0.50)

/-- `GROQ_PRICING.get(self.model, DEFAULT_PRICING)`. -/
def groqPricing (model : String) : ℚ × ℚ :=
  (dictGet GROQ_PRICING model).getD DEFAULT_PRICING

/-- `GroqClient.estimate_cost` (lines 182-198 of `groq.py`):
`(input_tokens / 1_000_000) * pricing["input"] +
(output_tokens / 1_000_000) * pricing["output"]`. -/
def estimate_cost (model : String) (input_tokens output_tokens : Nat) : ℚ :=
  ((input_tokens : ℚ) / 1000000) * (groqPricing model).1 +
    ((output_tokens : ℚ) / 1000000) * (groqPricing model).2

/-- **C7**: `estimate_cost` is a pure function of the static price table,
linear in the token counts (`cost(2x, 2y) = 2 * cost(x, y)`), computed as
input tokens per million times the model's input rate plus output tokens
per million times its output rate; models absent from the table fall back
to the documented default rate for both rates. -/
theorem estimate_cost_linear_and_default (model : String) (x y : Nat) :
    estimate_cost model (2 * x) (2 * y) = 2 * estimate_cost model x y ∧
    estimate_cost model x y =
      ((x : ℚ) / 1000000) * (groqPricing model).1 +
        ((y : ℚ) / 1000000) * (groqPricing model).2 ∧
    (dictGet GROQ_PRICING model = none →
      groqPricing model = DEFAULT_PRICING) := by
  refine ⟨?_, rfl, ?_⟩
  · unfold estimate_cost
    push_cast
    ring
  · intro h
    unfold groqPricing
    rw [h]
    rfl

/-- Witness for C7: an unknown model uses the default rate, and the cost
is linear at concrete token counts. -/
theorem estimate_cost_linear_and_default_witness :
    dictGet GROQ_PRICING "gpt-unknown" = none ∧
    groqPricing "gpt-unknown" = DEFAULT_PRICING ∧
    estimate_cost "gpt-unknown" (2 * 3) (2 * 5) =
      2 * estimate_cost "gpt-unknown" 3 5 :=
  ⟨by decide,
    (estimate_cost_linear_and_default "gpt-unknown" 3 5).2.2 (by decide),
    (estimate_cost_linear_and_default "gpt-unknown" 3 5).1⟩

/-! ## Provider registry (`unified_ai/core/fallback.py` lines 64-129,
`unified_ai/config.py`) -/

/-- The slice of `Settings` the registry reads. Optional keys model the
`str | None` fields; Python truthiness makes `""` count as absent. -/
structure Settings where
  groq_api_key : Option String
  google_api_key : Option String
  openai_api_key : Option String
  anthropic_api_key : Option String
  llm_provider_order : String
  groq_model : String
  gemini_model : String
  openai_model : String
deriving DecidableEq, Repr

/-- Python `str.lower()` for one character (ASCII range, as used by the
provider names), written directly on the character so it evaluates. -/
def lowerChar (c : Char) : Char :=
  if 'A' ≤ c ∧ c ≤ 'Z' then Char.ofNat (c.toNat + 32) else c

/-- Python `str.lower()` modelled on the character list. -/
def asciiLower (s : String) : String :=
  ⟨s.data.map lowerChar⟩

/-- Python `str.strip()` modelled on the character list. -/
def pyStrip (s : String) : String :=
  ⟨((s.data.dropWhile Char.isWhitespace).reverse.dropWhile
      Char.isWhitespace).reverse⟩

/-- Python `str.split(",")` on the character list: splits at every comma,
keeping empty pieces. -/
def splitCommaChars : List Char → List (List Char)
  | [] => [[]]
  | c :: rest =>
    match splitCommaChars rest with
    | [] => [[]]
    | cur :: done =>
      if c = ',' then [] :: cur :: done else (c :: cur) :: done

/-- Python `self.llm_provider_order.split(",")`. -/
def splitComma (s : String) : List String :=
  (splitCommaChars s.data).map fun l => ⟨l⟩

/-- `Settings.provider_order`:
`[p.strip().lower() for p in self.llm_provider_order.split(",")]`. -/
def Settings.provider_order (st : Settings) : List String :=
  (splitComma st.llm_provider_order).map fun p => asciiLower (pyStrip p)

/-- Python truthiness of a `str | None` setting. -/
def truthy : Option String → Bool
  | none => false
  | some s => !(s == "")

/-- One constructed client, abstracted to the fields the factory sets. -/
structure LLMClient where
  provider : String
  api_key : String
  model : String
deriving DecidableEq, Repr

/-- `create_provider` (lines 64-96 of `fallback.py`): lowercases the
name, requires the matching credential to be truthy, and returns `None`
for `anthropic` (TODO in the source) and for unknown names. -/
def create_provider (provider_name : String) (st : Settings) : Option LLMClient :=
  if asciiLower provider_name = "groq" ∧ truthy st.groq_api_key then
    some { provider := "groq", api_key := st.groq_api_key.getD "",
           model := st.groq_model }
  else if asciiLower provider_name = "gemini" ∧ truthy st.google_api_key then
    some { provider := "gemini", api_key := st.google_api_key.getD "",
           model := st.gemini_model }
  else if asciiLower provider_name = "openai" ∧ truthy st.openai_api_key then
    some { provider := "openai", api_key := st.openai_api_key.getD "",
           model := st.openai_model }
  else
    none

/-- `create_provider_chain` (lines 99-129 of `fallback.py`): keep, in
order, the clients the factory returns; skip the `None`s. -/
def create_provider_chain (st : Settings) : List LLMClient :=
  st.provider_order.filterMap fun n => create_provider n st

/-- A constructed client's `provider` field is the lowercased name it was
requested under. -/
theorem create_provider_field (n : String) (st : Settings) (c : LLMClient)
    (h : create_provider n st = some c) : c.provider = asciiLower n := by
  unfold create_provider at h
  by_cases h1 : asciiLower n = "groq" ∧ truthy st.groq_api_key
  · rw [if_pos h1] at h
    cases h
    exact h1.1.symm
  · rw [if_neg h1] at h
    by_cases h2 : asciiLower n = "gemini" ∧ truthy st.google_api_key
    · rw [if_pos h2] at h
      cases h
      exact h2.1.symm
    · rw [if_neg h2] at h
      by_cases h3 : asciiLower n = "openai" ∧ truthy st.openai_api_key
      · rw [if_pos h3] at h
        cases h
        exact h3.1.symm
      · rw [if_neg h3] at h
        exact absurd h (by simp)

/-- The chain's provider names are a sublist of the lowercased configured
order: relative order is preserved. -/
theorem chain_providers_sublist (st : Settings) :
    ∀ (l : List String),
      List.Sublist
        ((l.filterMap fun n => create_provider n st).map fun c => c.provider)
        (l.map asciiLower)
  | [] => List.nil_sublist _
  | n :: rest => by
    rw [List.map_cons]
    cases hc : create_provider n st with
    | none =>
      simp only [List.filterMap_cons, hc]
      exact (chain_providers_sublist st rest).cons _
    | some c =>
      simp only [List.filterMap_cons, hc, List.map_cons,
        create_provider_field n st c hc]
      exact (chain_providers_sublist st rest).cons₂ _

/-- Settings whose only credential is an Anthropic key, with `anthropic`
first in the order. -/
def cSettingsAnthropic : Settings :=
  { groq_api_key := none, google_api_key := none, openai_api_key := none,
    anthropic_api_key := some "sk-ant-key",
    llm_provider_order := "anthropic",
    groq_model := "llama-3.3-70b-versatile",
    gemini_model := "gemini-1.5-flash",
    openai_model := "gpt-4o-mini" }

/-- **C8, counterexample**: `anthropic` appears in the configured order
and its credential is present, yet the registry yields no client for it
(the factory's Anthropic branch is an unimplemented TODO), refuting the
claimed "client included iff credential present". -/
theorem registry_skips_configured_anthropic :
    cSettingsAnthropic.provider_order = ["anthropic"] ∧
    cSettingsAnthropic.anthropic_api_key = some "sk-ant-key" ∧
    create_provider_chain cSettingsAnthropic = [] := by
  refine ⟨by decide, rfl, by decide⟩

/-- **C8, amended**: for the three supported identifiers (`groq`,
`gemini`, `openai`) a client is included iff the matching credential is
truthy; `anthropic` and unknown identifiers are always skipped without
error; the relative configured order of the instantiated clients is
preserved. -/
theorem registry_supported_iff_credential (st : Settings) :
    create_provider_chain st =
      (st.provider_order.filterMap fun n => create_provider n st) ∧
    (∀ n : String, asciiLower n = "groq" →
      (create_provider n st).isSome = truthy st.groq_api_key) ∧
    (∀ n : String, asciiLower n = "gemini" →
      (create_provider n st).isSome = truthy st.google_api_key) ∧
    (∀ n : String, asciiLower n = "openai" →
      (create_provider n st).isSome = truthy st.openai_api_key) ∧
    (∀ n : String, asciiLower n ∉ (["groq", "gemini", "openai"] : List String) →
      create_provider n st = none) ∧
    List.Sublist ((create_provider_chain st).map fun c => c.provider)
      (st.provider_order.map asciiLower) := by
  refine ⟨rfl, ?_, ?_, ?_, ?_, chain_providers_sublist st st.provider_order⟩
  · intro n hn
    unfold create_provider
    rw [hn]
    by_cases hk : truthy st.groq_api_key
    · rw [if_pos ⟨rfl, hk⟩, hk]
      rfl
    · rw [if_neg (fun hc => hk hc.2), if_neg (by simp),
        if_neg (by simp), eq_comm]
      simpa using hk
  · intro n hn
    unfold create_provider
    rw [hn]
    by_cases hk : truthy st.google_api_key
    · rw [if_neg (by simp), if_pos ⟨rfl, hk⟩, hk]
      rfl
    · rw [if_neg (by simp), if_neg (fun hc => hk hc.2),
        if_neg (by simp), eq_comm]
      simpa using hk
  · intro n hn
    unfold create_provider
    rw [hn]
    by_cases hk : truthy st.openai_api_key
    · rw [if_neg (by simp), if_neg (by simp), if_pos ⟨rfl, hk⟩, hk]
      rfl
    · rw [if_neg (by simp), if_neg (by simp),
        if_neg (fun hc => hk hc.2), eq_comm]
      simpa using hk
  · intro n hn
    simp only [List.mem_cons, List.mem_singleton, not_or] at hn
    unfold create_provider
    rw [if_neg (fun hc => hn.1 hc.1), if_neg (fun hc => hn.2.1 hc.1),
      if_neg (fun hc => hn.2.2.1 hc.1)]

/-- Settings with only a Groq credential. -/
def cSettingsGroq : Settings :=
  { groq_api_key := some "gsk-1", google_api_key := none,
    openai_api_key := none, anthropic_api_key := none,
    llm_provider_order := "groq,gemini,openai,anthropic",
    groq_model := "llama-3.3-70b-versatile",
    gemini_model := "gemini-1.5-flash",
    openai_model := "gpt-4o-mini" }

/-- Witness for the amended C8 at concrete settings. -/
theorem registry_supported_iff_credential_witness :
    (create_provider "groq" cSettingsGroq).isSome =
      truthy cSettingsGroq.groq_api_key ∧
    (create_provider "gemini" cSettingsGroq).isSome =
      truthy cSettingsGroq.google_api_key ∧
    create_provider "anthropic" cSettingsGroq = none :=
  ⟨(registry_supported_iff_credential cSettingsGroq).2.1 "groq" (by decide),
    (registry_supported_iff_credential cSettingsGroq).2.2.1 "gemini" (by decide),
    (registry_supported_iff_credential cSettingsGroq).2.2.2.2.1 "anthropic"
      (by decide)⟩


/-! ## Health check (`FallbackChain.health_check`, lines 239-269 of
`fallback.py`, and the `/health` route in `api/routes/health.py`)

Each probe is modelled by its outcome for this call: it either returns a
boolean after some duration (in seconds, as `ℚ`), or its execution raises.
The `asyncio.gather` fan-out is modelled by mapping over the providers;
the concurrency itself carries no further observable content here. -/

/-- The per-probe timeout passed to `asyncio.wait_for` (10.0 seconds). -/
def healthCheckTimeout : ℚ := 10

/-- Behaviour of one provider's `health_check()` probe for this call. -/
inductive ProbeBehavior where
  | returns (healthy : Bool) (duration : ℚ)
  | raises
deriving DecidableEq, Repr

/-- A provider as seen by `health_check`: its name and probe behaviour. -/
structure ProbedProvider where
  name : String
  behavior : ProbeBehavior
deriving DecidableEq, Repr

/-- The inner `check_provider` coroutine: a probe that outlives the
timeout yields `(name, False)`; a probe that raises yields no entry
(the surrounding `gather(..., return_exceptions=True)` result is skipped
by the `isinstance(result, Exception)` check). -/
def check_provider (p : ProbedProvider) : Option (String × Bool) :=
  match p.behavior with
  | .raises => none
  | .returns h d =>
    if healthCheckTimeout < d then some (p.name, false) else some (p.name, h)

/-- `FallbackChain.health_check`: the result map, in provider order. -/
def health_check (ps : List ProbedProvider) : List (String × Bool) :=
  ps.filterMap check_provider

/-- The aggregate status computed by the `/health` route:
`"healthy" if any(provider_health.values()) else "degraded"`
(an empty map also reads as `"degraded"`). -/
def overallStatus (results : List (String × Bool)) : String :=
  if results.any (fun e => e.2) then "healthy" else "degraded"

/-- **C6**: every configured backend is probed under the 10-second
timeout; a probe finishing in time contributes its own boolean, a probe
exceeding the timeout is recorded as `false`, a probe whose execution
raises is omitted from the result map entirely, and the aggregate status
is `"healthy"` iff at least one backend in the map reports `true` (else
`"degraded"`). -/
theorem health_check_map_and_status
    (ps : List ProbedProvider)
    (hnd : (ps.map ProbedProvider.name).Nodup) :
    (∀ p ∈ ps, ∀ (h : Bool) (d : ℚ), p.behavior = .returns h d →
      ¬ healthCheckTimeout < d → (p.name, h) ∈ health_check ps) ∧
    (∀ p ∈ ps, ∀ (h : Bool) (d : ℚ), p.behavior = .returns h d →
      healthCheckTimeout < d → (p.name, false) ∈ health_check ps) ∧
    (∀ p ∈ ps, p.behavior = .raises →
      ∀ b : Bool, (p.name, b) ∉ health_check ps) ∧
    (overallStatus (health_check ps) = "healthy" ↔
      ∃ e ∈ health_check ps, e.2 = true) := by
  refine ⟨?_, ?_, ?_, ?_⟩
  · intro p hp h d hb ht
    refine List.mem_filterMap.mpr ⟨p, hp, ?_⟩
    simp only [check_provider, hb, if_neg ht]
  · intro p hp h d hb ht
    refine List.mem_filterMap.mpr ⟨p, hp, ?_⟩
    simp only [check_provider, hb, if_pos ht]
  · intro p hp hb b hmem
    obtain ⟨q, hq, hcq⟩ := List.mem_filterMap.mp hmem
    have hname : q.name = p.name := by
      cases hqb : q.behavior with
      | raises =>
        simp only [check_provider, hqb] at hcq
        exact absurd hcq (by simp)
      | returns h d =>
        simp only [check_provider, hqb] at hcq
        by_cases ht : healthCheckTimeout < d
        · rw [if_pos ht] at hcq
          exact congrArg Prod.fst (Option.some.inj hcq)
        · rw [if_neg ht] at hcq
          exact congrArg Prod.fst (Option.some.inj hcq)
    have hqp : q = p :=
      List.inj_on_of_nodup_map hnd hq hp hname
    rw [hqp] at hcq
    simp only [check_provider, hb] at hcq
    exact absurd hcq (by simp)
  · unfold overallStatus
    by_cases hany : (health_check ps).any (fun e => e.2) = true
    · rw [if_pos hany]
      simp only [true_iff]
      obtain ⟨e, he, hb⟩ := List.any_eq_true.mp hany
      exact ⟨e, he, hb⟩
    · rw [if_neg hany]
      constructor
      · intro h
        exact absurd h (by decide)
      · intro ⟨e, he, hb⟩
        exact absurd (List.any_eq_true.mpr ⟨e, he, hb⟩) hany

/-- A healthy fast probe. -/
def wProbeA : ProbedProvider := { name := "groq", behavior := .returns true 1 }

/-- A probe that would report healthy but exceeds the 10-second timeout. -/
def wProbeB : ProbedProvider := { name := "gemini", behavior := .returns true 11 }

/-- A probe whose execution raises. -/
def wProbeC : ProbedProvider := { name := "openai", behavior := .raises }

/-- Witness for C6: with a healthy probe, a timed-out probe and a raising
probe, the map holds `true` and `false` for the first two, omits the
third, and the aggregate status is healthy. -/
theorem health_check_map_and_status_witness :
    ("groq", true) ∈ health_check [wProbeA, wProbeB, wProbeC] ∧
    ("gemini", false) ∈ health_check [wProbeA, wProbeB, wProbeC] ∧
    (∀ b : Bool, ("openai", b) ∉ health_check [wProbeA, wProbeB, wProbeC]) ∧
    (overallStatus (health_check [wProbeA, wProbeB, wProbeC]) = "healthy" ↔
      ∃ e ∈ health_check [wProbeA, wProbeB, wProbeC], e.2 = true) := by
  have h := health_check_map_and_status [wProbeA, wProbeB, wProbeC] (by decide)
  exact ⟨h.1 wProbeA (by decide) true 1 rfl (by decide),
    h.2.1 wProbeB (by decide) true 11 rfl (by decide),
    h.2.2.1 wProbeC (by decide) rfl,
    h.2.2.2⟩

end UnifiedAI
